import Mathlib

/-!
Verification development for the space-knowledge-engine core transform:
the analyzer (`agents/analyzer_agent.py` with `tools/parser_utils.py`) and
the evaluator (`agents/evaluator_agent.py`).

Modelling conventions:
- Python strings are modelled as `List Char` (ASCII-oriented: Python's
  unicode-aware `\s`, `str.lower` and `re.IGNORECASE` agree with the model on
  the ASCII range, which is the range exercised by this repository).
- Python floats are modelled as exact rationals.  Every numeric value the
  scorer manipulates is an integer multiple of 0.5 well inside the exactly
  representable dyadic range, so rational arithmetic coincides with IEEE-754
  double arithmetic there; parsed literal values are compared only for
  identity, never mixed into further float arithmetic.
- The regular-expression scans (`re.findall` / `re.finditer`) are embedded as
  specialised deterministic matchers for the two concrete patterns in the
  source, with the backtracking behaviour of the Python engine worked out per
  pattern (comments inline justify each pruned backtracking branch).
- `float(...)` is the one fallible primitive (`try/except` in the source); it
  is modelled as an `Option`-returning parser, and the `except: continue`
  handlers as `filterMap`.
-/

/-- Python `\s` on the ASCII range: the whitespace class used by
`_WS_RE`, `str.split()`, `str.strip()` and the sentence splitter. -/
def pyIsSpace (c : Char) : Bool :=
  c = ' ' || c = '\t' || c = '\n' || c = '\r' || c = '\x0b' || c = '\x0c'

/-- Convert a Lean string literal to the `List Char` representation. -/
def strL (s : String) : List Char := s.data

/-- Python `str.lower` (ASCII range). -/
def lowerStr (l : List Char) : List Char := l.map Char.toLower

/-- Structural `span`: longest prefix satisfying `p`, and the rest. -/
def spanP (p : Char → Bool) : List Char → List Char × List Char
  | [] => ([], [])
  | c :: t =>
    if p c then
      let r := spanP p t
      (c :: r.1, r.2)
    else ([], c :: t)

/-! ## tools/parser_utils.py -/

/-- The `text.replace("\r", " ").replace("\t", " ")` step of `clean_text`. -/
def replCrTab (c : Char) : Char :=
  if c = '\r' || c = '\t' then ' ' else c

/-- Emit a whitespace character as the single `' '` the run is replaced by. -/
def normWS (c : Char) : Char := if pyIsSpace c then ' ' else c

/-- The `_WS_RE.sub(" ", text)` step of `clean_text`: every maximal run of
whitespace becomes a single `' '`.  Each emitted character is the run's last
character normalised to `' '`. -/
def collapseWS : List Char → List Char
  | [] => []
  | [c] => [normWS c]
  | c₁ :: c₂ :: t =>
    if pyIsSpace c₁ && pyIsSpace c₂ then collapseWS (c₂ :: t)
    else normWS c₁ :: collapseWS (c₂ :: t)

/-- Python `str.strip()`, left part. -/
def lstripWS (l : List Char) : List Char := l.dropWhile pyIsSpace

/-- Python `str.strip()`, right part. -/
def rstripWS (l : List Char) : List Char := (l.reverse.dropWhile pyIsSpace).reverse

/-- `tools.parser_utils.clean_text`: `""` on falsy input, otherwise replace
`\r`/`\t` by spaces, collapse whitespace runs to single spaces, and strip. -/
def clean_text (l : List Char) : List Char :=
  if l.isEmpty then []
  else rstripWS (lstripWS (collapseWS (l.map replCrTab)))

/-! ## Number scanning: `_NUMBER_RE = [-+]?\d*\.\d+|\d+` -/

/-- Match `\.\d+` (a decimal point with a nonempty greedy digit run). -/
def matchDotFrac : List Char → Option (List Char × List Char)
  | [] => none
  | c :: r =>
    if c = '.' then
      let s := spanP Char.isDigit r
      if s.1.isEmpty then none else some ('.' :: s.1, s.2)
    else none

/-- Match `\d*\.\d+` greedily.  Backtracking the greedy `\d*` never helps: a
shorter digit run leaves a digit (not `.`) as the next character. -/
def matchL1body (l : List Char) : Option (List Char × List Char) :=
  let s := spanP Char.isDigit l
  match matchDotFrac s.2 with
  | some (df, r) => some (s.1 ++ df, r)
  | none => none

/-- Match the first alternative `[-+]?\d*\.\d+`.  When a sign is present and
the body fails, retrying without consuming the sign also fails (the sign
character is neither a digit nor `.`), so the whole alternative fails. -/
def matchL1 : List Char → Option (List Char × List Char)
  | [] => none
  | c :: r =>
    if c = '-' || c = '+' then
      match matchL1body r with
      | some (m, rest) => some (c :: m, rest)
      | none => none
    else matchL1body (c :: r)

/-- Match the second alternative `\d+` (greedy digit run). -/
def matchL2 (l : List Char) : Option (List Char × List Char) :=
  let s := spanP Char.isDigit l
  if s.1.isEmpty then none else some (s.1, s.2)

/-- One attempt of `_NUMBER_RE` at the current position: the Python engine
tries the first alternative, then the second. -/
def numMatchAt (l : List Char) : Option (List Char × List Char) :=
  match matchL1 l with
  | some r => some r
  | none => matchL2 l

/-- Fuelled scan loop of `re.findall(_NUMBER_RE, ·)`: on a match continue
after it, otherwise advance one character.  Every match consumes at least one
character, so fuel `l.length` always suffices. -/
def numTokensGo : Nat → List Char → List (List Char)
  | 0, _ => []
  | _ + 1, [] => []
  | fuel + 1, c :: rest =>
    match numMatchAt (c :: rest) with
    | some (m, r) => m :: numTokensGo fuel r
    | none => numTokensGo fuel rest

/-- `re.findall(_NUMBER_RE, l)`. -/
def numFindall (l : List Char) : List (List Char) := numTokensGo l.length l

/-! ## Python `float()` on the token shapes produced by the two regexes.

Modelled from the source's `float(...)` calls: accepts
`[sign] (digits [. digits] | . digits) [e|E [sign] digits]` and returns
`none` on anything else (the `except` branch).  The full CPython `float`
grammar also accepts forms such as `"inf"`, `"nan"` or underscores, but no
token produced by `_NUMBER_RE` or `_MEASUREMENT_RE` has those shapes, so the
restriction is invisible to the embedded code. -/

/-- Numeric value of a digit run. -/
def digitsVal (l : List Char) : Nat :=
  l.foldl (fun n c => n * 10 + (c.toNat - 48)) 0

/-- Parse an optional exponent suffix; `some e` only when the whole remaining
input is a well-formed (possibly absent) exponent. -/
def pyExp : List Char → Option Int
  | [] => some 0
  | c :: r =>
    if c = 'e' || c = 'E' then
      let sr : Int × List Char :=
        match r with
        | s :: r' =>
          if s = '-' then (-1, r') else if s = '+' then (1, r') else (1, r)
        | [] => (1, [])
      let d := spanP Char.isDigit sr.2
      if d.1.isEmpty || !d.2.isEmpty then none
      else some (sr.1 * (digitsVal d.1 : Int))
    else none

/-- Mantissa-and-exponent part of `float()` (input already sign-stripped). -/
def pyFloatCore (l : List Char) : Option ℚ :=
  let ip := spanP Char.isDigit l
  match ip.2 with
  | c :: r =>
    if c = '.' then
      let fp := spanP Char.isDigit r
      if ip.1.isEmpty && fp.1.isEmpty then none
      else
        (pyExp fp.2).map fun e =>
          ((digitsVal ip.1 : ℚ) + (digitsVal fp.1 : ℚ) / 10 ^ fp.1.length) * 10 ^ e
    else
      if ip.1.isEmpty then none
      else (pyExp (c :: r)).map fun e => (digitsVal ip.1 : ℚ) * 10 ^ e
  | [] =>
    if ip.1.isEmpty then none
    else (pyExp []).map fun e => (digitsVal ip.1 : ℚ) * 10 ^ e

/-- Python `float(token)`, `none` modelling the raised `ValueError`. -/
def pyFloat : List Char → Option ℚ
  | [] => none
  | c :: r =>
    if c = '-' then (pyFloatCore r).map (fun q => -q)
    else if c = '+' then pyFloatCore r
    else pyFloatCore (c :: r)

/-- `AnalyzerAgent._extract_numbers`: convert every `_NUMBER_RE` match with
`float`, skipping (`except: continue`) any token that fails to convert. -/
def extract_numbers (l : List Char) : List ℚ :=
  (numFindall l).filterMap pyFloat

/-! ## Measurement scanning:
`_MEASUREMENT_RE = (?P<raw>(?P<value>[-+]?\d*\.\d+|\d+(?:e[-+]?\d+)?)[\s\-]*(?P<unit>[A-Za-z/%°μkmhdys]+))`
with `re.IGNORECASE` (which only affects the `e` of the exponent on the ASCII
range; the letter class is already both-cases). -/

/-- The unit character class `[A-Za-z/%°μkmhdys]` (the trailing letters are
redundant with `A-Za-z`). -/
def isUnitChar (c : Char) : Bool :=
  c.isAlpha || c = '/' || c = '%' || c = '°' || c = 'μ'

/-- Separator class `[\s\-]`. -/
def isSepChar (c : Char) : Bool := pyIsSpace c || c = '-'

/-- Match `[\s\-]*(?P<unit>[A-Za-z/%°μkmhdys]+)` greedily, returning
(separators, unit, rest).  Backtracking the greedy `[\s\-]*` never helps: a
shorter separator run leaves a separator character as the next character, and
no separator is a unit character. -/
def matchSepUnit (l : List Char) : Option (List Char × List Char × List Char) :=
  let s := spanP isSepChar l
  let u := spanP isUnitChar s.2
  if u.1.isEmpty then none else some (s.1, u.1, u.2)

/-- Match the optional exponent `(?:e[-+]?\d+)` of the measurement value's
second alternative, returning the consumed text. -/
def expTail : List Char → Option (List Char × List Char)
  | [] => none
  | c :: r =>
    if c = 'e' || c = 'E' then
      match r with
      | s :: r' =>
        if s = '-' || s = '+' then
          let d := spanP Char.isDigit r'
          if d.1.isEmpty then none else some (c :: s :: d.1, d.2)
        else
          let d := spanP Char.isDigit r
          if d.1.isEmpty then none else some (c :: d.1, d.2)
      | [] => none
    else none

/-- One raw measurement match: the three named groups of `_MEASUREMENT_RE`. -/
structure MeasMatch where
  valueTok : List Char
  unitTok : List Char
  raw : List Char
  deriving Repr, DecidableEq

/-- The second value alternative `\d+(?:e[-+]?\d+)?` followed by the
separator/unit tail.  If the tail fails after consuming an exponent, the
engine backtracks; shrinking the exponent's greedy `\d+` always leaves a
digit next (neither separator nor unit character), so the only viable
backtrack is dropping the optional exponent group entirely. -/
def measMatchB (l : List Char) : Option (MeasMatch × List Char) :=
  let d := spanP Char.isDigit l
  if d.1.isEmpty then none
  else
    match expTail d.2 with
    | some (e, r) =>
      match matchSepUnit r with
      | some (s, u, r') =>
        some ({ valueTok := d.1 ++ e, unitTok := u, raw := d.1 ++ e ++ s ++ u }, r')
      | none =>
        match matchSepUnit d.2 with
        | some (s, u, r') =>
          some ({ valueTok := d.1, unitTok := u, raw := d.1 ++ s ++ u }, r')
        | none => none
    | none =>
      match matchSepUnit d.2 with
      | some (s, u, r') =>
        some ({ valueTok := d.1, unitTok := u, raw := d.1 ++ s ++ u }, r')
      | none => none

/-- One attempt of `_MEASUREMENT_RE` at the current position.  The first
value alternative `[-+]?\d*\.\d+` cannot rescue a failed separator/unit tail
by backtracking (shorter fraction runs leave a digit next), so on tail
failure the engine falls through to the second alternative. -/
def measMatchAt (l : List Char) : Option (MeasMatch × List Char) :=
  match matchL1 l with
  | some (v, r) =>
    match matchSepUnit r with
    | some (s, u, r') =>
      some ({ valueTok := v, unitTok := u, raw := v ++ s ++ u }, r')
    | none => measMatchB l
  | none => measMatchB l

/-- Fuelled scan loop of `re.finditer(_MEASUREMENT_RE, ·)`. -/
def measTokensGo : Nat → List Char → List MeasMatch
  | 0, _ => []
  | _ + 1, [] => []
  | fuel + 1, c :: rest =>
    match measMatchAt (c :: rest) with
    | some (m, r) => m :: measTokensGo fuel r
    | none => measTokensGo fuel rest

/-- `re.finditer(_MEASUREMENT_RE, l)` (matches only). -/
def measFinditer (l : List Char) : List MeasMatch := measTokensGo l.length l

/-- `_MEASUREMENT_RE.search(l) is not None`, used by `_find_claims`. -/
def measSearch : List Char → Bool
  | [] => false
  | c :: rest => (measMatchAt (c :: rest)).isSome || measSearch rest

/-- A measurement record `{"value": float, "unit": str, "raw": str}`. -/
structure Measurement where
  value : ℚ
  unit : List Char
  raw : List Char
  deriving Repr, DecidableEq

/-- Body of the per-match `try` block of `_extract_measurements`: strip the
unit (a no-op: unit characters are never whitespace, but kept for fidelity),
normalise `μ` to `u`, and convert the value with `float`; `none` on the
conversion failure caught by the `except` handler. -/
def measConv (m : MeasMatch) : Option Measurement :=
  (pyFloat m.valueTok).map fun v =>
    { value := v
      unit := (rstripWS (lstripWS m.unitTok)).map fun c => if c = 'μ' then 'u' else c
      raw := m.raw }

/-- `AnalyzerAgent._extract_measurements`: convert each regex match, skipping
(`except: continue`) any match whose value fails to convert. -/
def extract_measurements (l : List Char) : List Measurement :=
  (measFinditer l).filterMap measConv

/-! ## Word splitting, sentences, keywords, claims -/

/-- Accumulator loop for Python `str.split()` (split on whitespace runs,
dropping empty pieces); `acc` holds the current word reversed. -/
def pySplitGo : List Char → List Char → List (List Char)
  | [], acc => if acc.isEmpty then [] else [acc.reverse]
  | c :: t, acc =>
    if pyIsSpace c then
      if acc.isEmpty then pySplitGo t [] else acc.reverse :: pySplitGo t []
    else pySplitGo t (c :: acc)

/-- Python `str.split()` with no arguments. -/
def pySplit (l : List Char) : List (List Char) := pySplitGo l []

/-- Accumulator loop for `_SENTENCE_SPLIT_RE.split`: `(?<=[\.\?\!])\s+`
starts a new piece at a whitespace character preceded by `.`, `?` or `!`.
The rest of the whitespace run is left on the next piece; the caller strips
every piece, so this agrees with the regex (which consumes the whole run). -/
def sentSplitGo : List Char → List Char → List (List Char)
  | [], acc => [acc.reverse]
  | c :: t, acc =>
    if pyIsSpace c && (match acc with
        | p :: _ => p = '.' || p = '?' || p = '!'
        | [] => false) then
      acc.reverse :: sentSplitGo t []
    else sentSplitGo t (c :: acc)

/-- Python `str.strip()` of a piece. -/
def stripWS (l : List Char) : List Char := rstripWS (lstripWS l)

/-- `AnalyzerAgent._extract_sentences`: `[]` on falsy input, else split,
strip each piece, and drop pieces that are empty after stripping. -/
def extract_sentences (l : List Char) : List (List Char) :=
  if l.isEmpty then []
  else ((sentSplitGo l []).map stripWS).filter fun s => !s.isEmpty

/-- Python substring containment `pat in hay` (note `"" in s` is `True`). -/
def containsSub (hay pat : List Char) : Bool :=
  match hay with
  | [] => pat.isEmpty
  | c :: t => pat.isPrefixOf (c :: t) || containsSub t pat

/-- `AnalyzerAgent._find_keywords`: the configured keywords found in the
lowercased text, in configuration order. -/
def find_keywords (kws : List (List Char)) (text : List Char) : List (List Char) :=
  kws.filter fun kw => containsSub (lowerStr text) kw

/-- Configuration state of a constructed `AnalyzerAgent`. -/
structure AnalyzerCfg where
  keywords : List (List Char)
  min_claim_length : Nat
  max_snippet_chars : Nat
  deriving Repr, DecidableEq

/-- `AnalyzerAgent.DEFAULT_KEYWORDS`. -/
def DEFAULT_KEYWORDS : List (List Char) :=
  [strL ("exoplanet"), strL ("orbital"), strL ("orbit"), strL ("radius"),
   strL ("mass"), strL ("transit"), strL ("spectra"), strL ("spectrum"),
   strL ("atmosphere"), strL ("cme"), strL ("solar"), strL ("habitability"),
   strL ("habitable"), strL ("apparent magnitude"), strL ("period"),
   strL ("days"), strL ("light-years"), strL ("spectroscopy")]

/-- `AnalyzerAgent.__init__`: a falsy `keywords` argument (absent or an empty
list) selects the default list; every entry is lowercased. -/
def mkAnalyzer (keywords : Option (List (List Char)))
    (min_claim_length : Nat := 30) (max_snippet_chars : Nat := 400) :
    AnalyzerCfg :=
  { keywords :=
      (match keywords with
        | some l => if l.isEmpty then DEFAULT_KEYWORDS else l
        | none => DEFAULT_KEYWORDS).map lowerStr
    min_claim_length := min_claim_length
    max_snippet_chars := max_snippet_chars }

/-- Default-constructed analyzer configuration. -/
def defaultAnalyzerCfg : AnalyzerCfg := mkAnalyzer none

/-- `AnalyzerAgent._find_claims`: keep each sentence of at least
`min_claim_length` characters that has a measurement match or contains a
configured keyword case-insensitively. -/
def find_claims (cfg : AnalyzerCfg) (text : List Char) : List (List Char) :=
  (extract_sentences text).filter fun s =>
    !decide (s.length < cfg.min_claim_length) &&
      (measSearch s || cfg.keywords.any fun kw => containsSub (lowerStr s) kw)

/-- The analysis dict produced by `AnalyzerAgent.analyze_text`. -/
structure Analysis where
  word_count : Nat
  sentence_count : Nat
  numbers_found : List ℚ
  measurements : List Measurement
  keywords_detected : List (List Char)
  claims : List (List Char)
  snippet : List Char
  deriving Repr, DecidableEq

/-- `AnalyzerAgent.analyze_text`: normalise, then derive every field from
the normalised text. -/
def analyze_text (cfg : AnalyzerCfg) (raw : List Char) : Analysis :=
  let cleaned := clean_text raw
  { word_count := (pySplit cleaned).length
    sentence_count := (extract_sentences cleaned).length
    numbers_found := extract_numbers cleaned
    measurements := extract_measurements cleaned
    keywords_detected := find_keywords cfg.keywords cleaned
    claims := find_claims cfg cleaned
    snippet :=
      cleaned.take cfg.max_snippet_chars ++
        (if cfg.max_snippet_chars < cleaned.length then ['.', '.', '.'] else []) }

/-! ## agents/evaluator_agent.py -/

/-- Configuration state of a constructed `EvaluatorAgent` (threshold,
effective weights after the `DEFAULT_WEIGHTS` update, and the tunable
heuristic parameters set in `__init__`). -/
structure EvCfg where
  threshold : ℚ := 3
  weight_keyword : ℚ := 2
  weight_numeric_bonus : ℚ := 3
  weight_length_bonus : ℚ := 1
  weight_claim_bonus : ℚ := 3 / 2
  numeric_count_for_bonus : Nat := 2
  min_word_count_for_length_bonus : Nat := 20
  deriving Repr, DecidableEq

/-- Default-constructed evaluator configuration. -/
def defaultEvCfg : EvCfg := {}

/-- The `breakdown` dict: one entry per factor, always present. -/
structure Breakdown where
  keyword_score : ℚ
  numeric_score : ℚ
  measurement_score : ℚ
  length_score : ℚ
  claim_score : ℚ
  penalty : ℚ
  deriving Repr, DecidableEq

/-- One entry of the `reasons` list.  The Python code renders these as
formatted strings; the constructors keep the data each message interpolates,
which is what the fixed emission order is about. -/
inductive Reason where
  | keywordsFound (n : Nat) (pts : ℚ)
  | numericDense (n : Nat) (pts : ℚ)
  | measurementsFound (n : Nat) (pts : ℚ)
  | lengthSufficient (wc : Nat) (pts : ℚ)
  | lengthShort (wc : Nat)
  | claimsFound (n : Nat) (pts : ℚ)
  | veryShortPenalized
  deriving Repr, DecidableEq

/-- The input item of `EvaluatorAgent.score` (only the fields it reads). -/
structure AnalysisItem where
  original_id : Option (List Char)
  analysis : Analysis
  deriving Repr, DecidableEq

/-- The result dict of `EvaluatorAgent.score`. -/
structure ScoreResult where
  original_id : Option (List Char)
  score : ℚ
  passed_threshold : Bool
  reasons : List Reason
  breakdown : Breakdown
  raw_analysis : Analysis
  deriving Repr, DecidableEq

/-- Keyword factor: `len(keywords) * weights["keyword"]`. -/
def keywordPts (cfg : EvCfg) (a : Analysis) : ℚ :=
  (a.keywords_detected.length : ℚ) * cfg.weight_keyword

/-- Numeric factor: flat bonus when `len(numbers) > numeric_count_for_bonus`. -/
def numericPts (cfg : EvCfg) (a : Analysis) : ℚ :=
  if cfg.numeric_count_for_bonus < a.numbers_found.length then
    cfg.weight_numeric_bonus
  else 0

/-- Measurement factor: `min(len(measurements) * 0.5, 3.0)` when any
measurement is present, else `0.0`. -/
def measurementPts (a : Analysis) : ℚ :=
  if 0 < a.measurements.length then
    min ((a.measurements.length : ℚ) * (1 / 2)) 3
  else 0

/-- Length factor: flat bonus when the word count reaches the minimum. -/
def lengthPts (cfg : EvCfg) (a : Analysis) : ℚ :=
  if cfg.min_word_count_for_length_bonus ≤ a.word_count then
    cfg.weight_length_bonus
  else 0

/-- Claim factor: `min(len(claims) * weights["claim_bonus"], 6.0)`. -/
def claimPts (cfg : EvCfg) (a : Analysis) : ℚ :=
  min ((a.claims.length : ℚ) * cfg.weight_claim_bonus) 6

/-- Penalty: `-2.0` when `word_count < 6`, else `0.0`. -/
def penaltyPts (a : Analysis) : ℚ :=
  if a.word_count < 6 then -2 else 0

/-- The unrounded total score. -/
def totalPts (cfg : EvCfg) (a : Analysis) : ℚ :=
  keywordPts cfg a + numericPts cfg a + measurementPts a + lengthPts cfg a +
    claimPts cfg a + penaltyPts a

/-- Round half to even at integer precision (Python `round`). -/
def roundHalfEven (q : ℚ) : ℤ :=
  if q - ⌊q⌋ < 1 / 2 then ⌊q⌋
  else if 1 / 2 < q - ⌊q⌋ then ⌊q⌋ + 1
  else if ⌊q⌋ % 2 = 0 then ⌊q⌋ else ⌊q⌋ + 1

/-- Python `round(q, 3)`. -/
def round3 (q : ℚ) : ℚ := (roundHalfEven (q * 1000) : ℚ) / 1000

/-- The `reasons` list, in the fixed factor order. -/
def scoreReasons (cfg : EvCfg) (a : Analysis) : List Reason :=
  (if 0 < a.keywords_detected.length then
      [Reason.keywordsFound a.keywords_detected.length (keywordPts cfg a)]
    else []) ++
  (if cfg.numeric_count_for_bonus < a.numbers_found.length then
      [Reason.numericDense a.numbers_found.length (numericPts cfg a)]
    else []) ++
  (if 0 < a.measurements.length then
      [Reason.measurementsFound a.measurements.length (measurementPts a)]
    else []) ++
  [if cfg.min_word_count_for_length_bonus ≤ a.word_count then
      Reason.lengthSufficient a.word_count (lengthPts cfg a)
    else Reason.lengthShort a.word_count] ++
  (if 0 < claimPts cfg a then [Reason.claimsFound a.claims.length (claimPts cfg a)]
    else []) ++
  (if a.word_count < 6 then [Reason.veryShortPenalized] else [])

/-- `EvaluatorAgent.score`: the six additive factors, the `reasons` list in
fixed order, the always-complete `breakdown`, the score rounded to three
decimals, and the pass verdict computed from the unrounded total. -/
def score (cfg : EvCfg) (item : AnalysisItem) : ScoreResult :=
  let a := item.analysis
  { original_id := item.original_id
    score := round3 (totalPts cfg a)
    passed_threshold := decide (cfg.threshold ≤ totalPts cfg a)
    reasons := scoreReasons cfg a
    breakdown :=
      { keyword_score := keywordPts cfg a
        numeric_score := numericPts cfg a
        measurement_score := measurementPts a
        length_score := lengthPts cfg a
        claim_score := claimPts cfg a
        penalty := penaltyPts a }
    raw_analysis := a }

/-- The composed core transform: `analyze_text` followed by `score` (the
item wrapper carries no information the scorer reads besides the analysis). -/
def run_pipeline (acfg : AnalyzerCfg) (ecfg : EvCfg) (raw : List Char) :
    ScoreResult :=
  score ecfg { original_id := none, analysis := analyze_text acfg raw }

/-- The sample K2-18b paragraph of the specification. -/
def sampleK218b : List Char :=
  strL ("The exoplanet K2-18b, located 124 light-years away... radius of approximately 2.6 times that of Earth and an orbital period of 33 days.")

/-! ## Specification-side definitions and concrete fixtures

The `spec…` definitions below follow the specification's words (for
refinement-style comparison with the code-derived matchers above); the
fixtures instantiate reachable configurations and records used by the
closed theorems. -/

/-- Core of the number-token grammar actually implemented: `digits* '.'
digits+` (the whole remainder must be the fraction). -/
def specNumCore (x : List Char) : Bool :=
  match (spanP Char.isDigit x).2 with
  | c :: fr => c = '.' && !fr.isEmpty && fr.all Char.isDigit
  | [] => false

/-- First alternative of the implemented grammar: an optional sign stripped
before the decimal core. -/
def specNumTokenSigned : List Char → Bool
  | [] => false
  | c :: rest =>
    if c = '-' || c = '+' then specNumCore rest else specNumCore (c :: rest)

/-- The number-token grammar of `_NUMBER_RE` as implemented: an optionally
signed decimal with mandatory fractional part, or an unsigned digit run. -/
def specNumToken (m : List Char) : Bool :=
  specNumTokenSigned m || (!m.isEmpty && m.all Char.isDigit)

/-- Core of the number-token grammar as the specification words it:
"digits, optional decimal point and fractional digits". -/
def claimedNumCore (x : List Char) : Bool :=
  let s := spanP Char.isDigit x
  !s.1.isEmpty &&
    (s.2.isEmpty ||
      (match s.2 with
        | c :: fr => c = '.' && !fr.isEmpty && fr.all Char.isDigit
        | [] => false))

/-- The number-token grammar as claimed: "optional sign, digits, optional
decimal point and fractional digits" (so a signed integer is a token). -/
def specNumTokenClaimed (m : List Char) : Bool :=
  match m with
  | [] => false
  | c :: rest => if c = '-' || c = '+' then claimedNumCore rest else claimedNumCore m

/-- The all-empty analysis record the specification requires for `""`. -/
def emptyAnalysis : Analysis :=
  { word_count := 0
    sentence_count := 0
    numbers_found := []
    measurements := []
    keywords_detected := []
    claims := []
    snippet := [] }

/-- An all-zero analysis record (degenerate scorer input). -/
def zeroAnalysis : Analysis := emptyAnalysis

/-- The all-zero record with a single detected keyword added. -/
def oneKwAnalysis : Analysis := { zeroAnalysis with keywords_detected := [strL ("a")] }

/-- A reachable evaluator configuration whose keyword weight `2 ** -20` is an
exact IEEE-754 double but is absorbed by the 3-decimal rounding. -/
def tinyEvCfg : EvCfg := { weight_keyword := 1 / 1048576 }

/-- A reachable analyzer configuration whose lowercased vocabulary has a
duplicate entry: `AnalyzerAgent(keywords=["Mass", "mass"])`. -/
def dupVocabCfg : AnalyzerCfg := mkAnalyzer (some [strL ("Mass"), strL ("mass")])

/-- A reachable analyzer configuration containing the empty keyword:
`AnalyzerAgent(keywords=[""])`. -/
def emptyKwCfg : AnalyzerCfg := mkAnalyzer (some [[]])

/-- A rational that is an integer multiple of one half (hence an exact
IEEE-754 double whose small sums and 3-decimal rounding are exact). -/
def isHalfIntQ (q : ℚ) : Prop := ∃ k : ℤ, q = (k : ℚ) / 2

/-- Adjacent characters are never both whitespace. -/

def WSok (a b : Char) : Prop := ¬(pyIsSpace a = true ∧ pyIsSpace b = true)

/-- Canonical form of normalised text: no two adjacent whitespace
characters, every whitespace character is `' '`, and no leading or trailing
whitespace. -/
def canonWS (l : List Char) : Prop :=
  List.Chain' WSok l ∧
  (∀ c ∈ l, pyIsSpace c = true → c = ' ') ∧
  (∀ c, l.head? = some c → pyIsSpace c = false) ∧
  (∀ c, l.getLast? = some c → pyIsSpace c = false)

/-- Well-formedness of an analysis record relative to its configuration:
the record the analyzer must deliver on every input, per the error-handling
policy (bounded snippet, keyword hits within the vocabulary, claims drawn
from the sentences). -/
def analysisWF (cfg : AnalyzerCfg) (r : Analysis) : Prop :=
  r.snippet.length ≤ cfg.max_snippet_chars + 3 ∧
  r.keywords_detected.length ≤ cfg.keywords.length ∧
  r.claims.length ≤ r.sentence_count

/-- Well-formedness of a score result: the score is the rounded sum of the
always-complete breakdown, the verdict compares the unrounded total against
the threshold, and the input is echoed back. -/
def scoreResultWF (cfg : EvCfg) (item : AnalysisItem) (r : ScoreResult) : Prop :=
  r.score =
    round3 (r.breakdown.keyword_score + r.breakdown.numeric_score +
      r.breakdown.measurement_score + r.breakdown.length_score +
      r.breakdown.claim_score + r.breakdown.penalty) ∧
  (r.passed_threshold = true ↔ cfg.threshold ≤ totalPts cfg item.analysis) ∧
  r.raw_analysis = item.analysis ∧
  r.original_id = item.original_id

/-! ## Helper lemmas: spans, substring containment, filterMap -/

theorem spanP_fst_all (p : Char → Bool) :
    ∀ l, ∀ c ∈ (spanP p l).1, p c = true := by
  intro l
  induction l with
  | nil => intro c hc; simp [spanP] at hc
  | cons a t ih =>
    intro c hc
    by_cases h : p a
    · simp only [spanP, h, if_true] at hc
      rcases List.mem_cons.1 hc with rfl | hc
      · exact h
      · exact ih c hc
    · simp [spanP, h] at hc

theorem spanP_append (p : Char → Bool) :
    ∀ (xs : List Char) (y : Char) (r : List Char),
      (∀ c ∈ xs, p c = true) → p y = false →
      spanP p (xs ++ y :: r) = (xs, y :: r) := by
  intro xs y r
  induction xs with
  | nil => intro _ hy; simp [spanP, hy]
  | cons a t ih =>
    intro hxs hy
    have ha : p a = true := hxs a (by simp)
    have ht := ih (fun c hc => hxs c (by simp [hc])) hy
    simp [spanP, ha, ht]

theorem spanP_all (p : Char → Bool) :
    ∀ l, (∀ c ∈ l, p c = true) → spanP p l = (l, []) := by
  intro l
  induction l with
  | nil => intro _; rfl
  | cons a t ih =>
    intro h
    have ha : p a = true := h a (by simp)
    have ht := ih fun c hc => h c (by simp [hc])
    simp [spanP, ha, ht]

theorem containsSub_infix_iff :
    ∀ hay pat : List Char, containsSub hay pat = true ↔ pat <:+: hay := by
  intro hay
  induction hay with
  | nil =>
    intro pat
    simp [containsSub, List.isEmpty_iff]
  | cons a t ih =>
    intro pat
    show (pat.isPrefixOf (a :: t) || containsSub t pat) = true ↔ _
    rw [Bool.or_eq_true, List.isPrefixOf_iff_prefix, ih]
    exact List.infix_cons_iff.symm

theorem filterMap_total {α β : Type} (f : α → Option β) (d : β) :
    ∀ l : List α, (∀ x ∈ l, (f x).isSome = true) →
      l.filterMap f = l.map fun x => (f x).getD d := by
  intro l
  induction l with
  | nil => intro _; rfl
  | cons a t ih =>
    intro h
    rcases Option.isSome_iff_exists.1 (h a (by simp)) with ⟨b, hb⟩
    have ht := ih fun x hx => h x (by simp [hx])
    simp [List.filterMap_cons, hb, ht]



/-! ## Soundness of the number matcher against the token grammar -/

theorem matchDotFrac_sound {l t r : List Char} (h : matchDotFrac l = some (t, r)) :
    ∃ fr, t = '.' :: fr ∧ fr ≠ [] ∧ ∀ c ∈ fr, Char.isDigit c = true := by
  cases l with
  | nil => simp [matchDotFrac] at h
  | cons c l' =>
    by_cases hc : c = '.'
    · subst hc
      simp only [matchDotFrac, if_pos rfl] at h
      by_cases he : (spanP Char.isDigit l').1.isEmpty
      · rw [if_pos he] at h; exact absurd h (by simp)
      · rw [if_neg he] at h
        cases h
        refine ⟨(spanP Char.isDigit l').1, rfl, ?_, spanP_fst_all _ _⟩
        intro hnil
        rw [hnil] at he
        exact he rfl
    · simp [matchDotFrac, hc] at h

theorem matchL1body_sound {l t r : List Char} (h : matchL1body l = some (t, r)) :
    specNumCore t = true := by
  simp only [matchL1body] at h
  cases hdf : matchDotFrac (spanP Char.isDigit l).2 with
  | none => rw [hdf] at h; exact absurd h (by simp)
  | some v =>
    obtain ⟨df, r'⟩ := v
    rw [hdf] at h
    simp only [Option.some.injEq, Prod.mk.injEq] at h
    obtain ⟨fr, hfr, hfrne, hfrd⟩ := matchDotFrac_sound hdf
    have ht : t = (spanP Char.isDigit l).1 ++ '.' :: fr := by rw [← h.1, hfr]
    have hspan :
        spanP Char.isDigit ((spanP Char.isDigit l).1 ++ '.' :: fr)
          = ((spanP Char.isDigit l).1, '.' :: fr) :=
      spanP_append _ _ _ _ (spanP_fst_all _ _) (by decide)
    have hne : fr.isEmpty = false := by
      cases fr with
      | nil => exact absurd rfl hfrne
      | cons a b => rfl
    rw [ht]
    unfold specNumCore
    rw [hspan]
    show (decide ('.' = '.') && !fr.isEmpty && fr.all Char.isDigit) = true
    rw [Bool.and_eq_true, Bool.and_eq_true, List.all_eq_true]
    exact ⟨⟨by decide, by rw [hne]; rfl⟩, hfrd⟩

theorem specNumToken_of_core {m : List Char} (h : specNumCore m = true) :
    specNumToken m = true := by
  unfold specNumToken
  rw [Bool.or_eq_true]
  left
  cases m with
  | nil => rw [specNumCore] at h; simp [spanP] at h
  | cons c rest =>
    simp only [specNumTokenSigned]
    by_cases hc : c = '-' || c = '+'
    · exfalso
      rw [specNumCore] at h
      have hcd : Char.isDigit c = false := by
        rw [Bool.or_eq_true] at hc
        rcases hc with h' | h' <;>
          · rw [decide_eq_true_eq] at h'; subst h'; decide
      simp only [spanP, hcd, Bool.false_eq_true, if_false] at h
      rw [Bool.or_eq_true] at hc
      rcases hc with h' | h' <;>
        · rw [decide_eq_true_eq] at h'; subst h'; simp at h
    · rw [if_neg hc]
      exact h

theorem matchL1_sound {l t r : List Char} (h : matchL1 l = some (t, r)) :
    specNumToken t = true := by
  cases l with
  | nil => simp [matchL1] at h
  | cons c l' =>
    by_cases hc : c = '-' || c = '+'
    · rw [matchL1, if_pos hc] at h
      cases hb : matchL1body l' with
      | none => rw [hb] at h; exact absurd h (by simp)
      | some v =>
        obtain ⟨m, rest⟩ := v
        rw [hb] at h
        simp only [Option.some.injEq, Prod.mk.injEq] at h
        have hm := matchL1body_sound hb
        rw [← h.1]
        unfold specNumToken
        rw [Bool.or_eq_true]
        left
        simp only [specNumTokenSigned]
        rw [if_pos hc]
        exact hm
    · rw [matchL1, if_neg hc] at h
      exact specNumToken_of_core (matchL1body_sound h)

theorem matchL2_sound {l t r : List Char} (h : matchL2 l = some (t, r)) :
    specNumToken t = true := by
  unfold matchL2 at h
  by_cases he : (spanP Char.isDigit l).1.isEmpty
  · rw [if_pos he] at h; exact absurd h (by simp)
  · rw [if_neg he] at h
    simp only [Option.some.injEq, Prod.mk.injEq] at h
    unfold specNumToken
    rw [Bool.or_eq_true]
    right
    rw [← h.1]
    rw [Bool.and_eq_true, List.all_eq_true]
    exact ⟨by simpa using he, spanP_fst_all _ _⟩

theorem numMatchAt_sound {l t r : List Char} (h : numMatchAt l = some (t, r)) :
    specNumToken t = true := by
  unfold numMatchAt at h
  cases h1 : matchL1 l with
  | none => rw [h1] at h; exact matchL2_sound h
  | some v =>
    rw [h1] at h
    obtain ⟨m, rest⟩ := v
    cases h
    exact matchL1_sound h1

theorem numTokensGo_sound :
    ∀ (fuel : Nat) (l t : List Char), t ∈ numTokensGo fuel l → specNumToken t = true := by
  intro fuel
  induction fuel with
  | zero => intro l t ht; simp [numTokensGo] at ht
  | succ f ih =>
    intro l t ht
    match l with
    | [] => simp [numTokensGo] at ht
    | c :: rest =>
      rw [numTokensGo] at ht
      cases hm : numMatchAt (c :: rest) with
      | none => rw [hm] at ht; exact ih rest t ht
      | some v =>
        obtain ⟨m, r⟩ := v
        rw [hm] at ht
        rcases List.mem_cons.1 ht with rfl | ht
        · exact numMatchAt_sound hm
        · exact ih r t ht

theorem numFindall_sound {l t : List Char} (h : t ∈ numFindall l) :
    specNumToken t = true :=
  numTokensGo_sound l.length l t h

/-! ## The float conversion succeeds on every matched number token -/

theorem pyFloatCore_digits {l : List Char} (hne : l ≠ [])
    (hd : ∀ c ∈ l, Char.isDigit c = true) : (pyFloatCore l).isSome = true := by
  have hs := spanP_all Char.isDigit l hd
  have hie : l.isEmpty = false := by
    cases l with
    | nil => exact absurd rfl hne
    | cons a b => rfl
  simp [pyFloatCore, hs, hie, pyExp]

theorem pyFloatCore_decimal {t : List Char} (h : specNumCore t = true) :
    (pyFloatCore t).isSome = true := by
  unfold specNumCore at h
  cases h2 : (spanP Char.isDigit t).2 with
  | nil => rw [h2] at h; exact absurd h (by simp)
  | cons c fr =>
    rw [h2] at h
    rw [Bool.and_eq_true, Bool.and_eq_true, List.all_eq_true] at h
    obtain ⟨⟨hcdot, hfrne⟩, hfrd⟩ := h
    rw [decide_eq_true_eq] at hcdot
    subst hcdot
    have hfp := spanP_all Char.isDigit fr hfrd
    have hfrne' : fr.isEmpty = false := by
      cases fr with
      | nil => simp at hfrne
      | cons a b => rfl
    simp only [pyFloatCore]
    rw [h2]
    simp [hfp, hfrne', pyExp]

theorem pyFloat_total_of_spec {t : List Char} (h : specNumToken t = true) :
    (pyFloat t).isSome = true := by
  unfold specNumToken at h
  rw [Bool.or_eq_true] at h
  rcases h with h | h
  · cases t with
    | nil => simp [specNumTokenSigned] at h
    | cons c rest =>
      simp only [specNumTokenSigned] at h
      by_cases hc : c = '-' || c = '+'
      · rw [if_pos hc] at h
        have hcore := pyFloatCore_decimal h
        rcases Option.isSome_iff_exists.1 hcore with ⟨v, hv⟩
        rw [Bool.or_eq_true] at hc
        rcases hc with h' | h' <;>
          · rw [decide_eq_true_eq] at h'
            subst h'
            simp [pyFloat, hv]
      · rw [if_neg hc] at h
        have hc1 : ¬ c = '-' := fun he => hc (by rw [he]; simp)
        have hc2 : ¬ c = '+' := fun he => hc (by rw [he]; simp)
        simp only [pyFloat]
        rw [if_neg hc1, if_neg hc2]
        exact pyFloatCore_decimal h
  · rw [Bool.and_eq_true, List.all_eq_true] at h
    obtain ⟨hne, hd⟩ := h
    cases t with
    | nil => simp at hne
    | cons c rest =>
      have hcd : Char.isDigit c = true := hd c (by simp)
      have hc1 : ¬ c = '-' := by
        intro he; rw [he] at hcd; exact absurd hcd (by decide)
      have hc2 : ¬ c = '+' := by
        intro he; rw [he] at hcd; exact absurd hcd (by decide)
      simp only [pyFloat]
      rw [if_neg hc1, if_neg hc2]
      exact pyFloatCore_digits (by simp) hd

/-! ## Idempotence of the whitespace normalisation -/

theorem pyIsSpace_normWS (c : Char) : pyIsSpace (normWS c) = pyIsSpace c := by
  unfold normWS
  by_cases h : pyIsSpace c
  · rw [if_pos h, h]; decide
  · rw [if_neg h]

theorem normWS_eq_self {c : Char} (h : pyIsSpace c = true → c = ' ') :
    normWS c = c := by
  unfold normWS
  by_cases hc : pyIsSpace c
  · rw [if_pos hc, h hc]
  · rw [if_neg hc]

theorem collapseWS_head :
    ∀ (t : List Char) (c : Char), (collapseWS (c :: t)).head? = some (normWS c) := by
  intro t
  induction t with
  | nil => intro c; rfl
  | cons b t' ih =>
    intro c
    simp only [collapseWS]
    by_cases h : pyIsSpace c && pyIsSpace b
    · rw [if_pos h, ih b]
      rw [Bool.and_eq_true] at h
      unfold normWS
      rw [if_pos h.1, if_pos h.2]
    · rw [if_neg h]
      rfl

theorem collapseWS_space :
    ∀ l : List Char, ∀ c ∈ collapseWS l, pyIsSpace c = true → c = ' ' := by
  intro l
  induction l with
  | nil => intro c hc _; simp [collapseWS] at hc
  | cons a t ih =>
    intro c hc hws
    cases t with
    | nil =>
      simp only [collapseWS] at hc
      rcases List.mem_singleton.1 hc with rfl
      by_cases ha : pyIsSpace a
      · unfold normWS; rw [if_pos ha]
      · exfalso
        unfold normWS at hws
        rw [if_neg ha] at hws
        exact ha hws
    | cons b t' =>
      simp only [collapseWS] at hc
      by_cases h : pyIsSpace a && pyIsSpace b
      · rw [if_pos h] at hc
        exact ih c hc hws
      · rw [if_neg h] at hc
        rcases List.mem_cons.1 hc with rfl | hc
        · by_cases ha : pyIsSpace a
          · unfold normWS; rw [if_pos ha]
          · exfalso
            unfold normWS at hws
            rw [if_neg ha] at hws
            exact ha hws
        · exact ih c hc hws

theorem collapseWS_chain : ∀ l : List Char, List.Chain' WSok (collapseWS l) := by
  intro l
  induction l with
  | nil => exact List.chain'_nil
  | cons a t ih =>
    cases t with
    | nil => exact List.chain'_singleton _
    | cons b t' =>
      simp only [collapseWS]
      by_cases h : pyIsSpace a && pyIsSpace b
      · rw [if_pos h]; exact ih
      · rw [if_neg h]
        rw [List.chain'_cons']
        refine ⟨?_, ih⟩
        intro y hy
        rw [collapseWS_head] at hy
        rcases Option.mem_some_iff.1 hy with rfl
        show ¬_
        rw [pyIsSpace_normWS, pyIsSpace_normWS]
        exact fun hh => h (by rw [Bool.and_eq_true]; exact hh)

theorem collapseWS_eq_self :
    ∀ l : List Char, List.Chain' WSok l →
      (∀ c ∈ l, pyIsSpace c = true → c = ' ') → collapseWS l = l := by
  intro l
  induction l with
  | nil => intro _ _; rfl
  | cons a t ih =>
    intro hch hsp
    cases t with
    | nil =>
      simp only [collapseWS]
      rw [normWS_eq_self (hsp a (by simp))]
    | cons b t' =>
      have hrel : WSok a b := (List.chain'_cons.1 hch).1
      have hcond : ¬(pyIsSpace a && pyIsSpace b) = true := by
        rw [Bool.and_eq_true]; exact hrel
      simp only [collapseWS]
      rw [if_neg hcond, normWS_eq_self (hsp a (by simp)),
        ih (List.chain'_cons.1 hch).2 fun c hc => hsp c (by simp [hc])]

theorem chain'_dropWhile {R : Char → Char → Prop} (p : Char → Bool) :
    ∀ l : List Char, List.Chain' R l → List.Chain' R (l.dropWhile p) := by
  intro l
  induction l with
  | nil => intro _; exact List.chain'_nil
  | cons a t ih =>
    intro h
    rw [List.dropWhile_cons]
    by_cases hp : p a
    · rw [if_pos hp]; exact ih h.tail
    · rw [if_neg hp]; exact h

theorem head?_dropWhile_false (p : Char → Bool) :
    ∀ (l : List Char) (c : Char), (l.dropWhile p).head? = some c → p c = false := by
  intro l
  induction l with
  | nil => intro c h; simp at h
  | cons a t ih =>
    intro c h
    rw [List.dropWhile_cons] at h
    by_cases hp : p a
    · rw [if_pos hp] at h; exact ih c h
    · rw [if_neg hp] at h
      rw [List.head?_cons, Option.some.injEq] at h
      rw [← h]
      cases hpa : p a with
      | false => rfl
      | true => exact absurd hpa hp

theorem dropWhile_eq_self_of_head (p : Char → Bool) (l : List Char)
    (h : ∀ c, l.head? = some c → p c = false) : l.dropWhile p = l := by
  cases l with
  | nil => rfl
  | cons a t =>
    have ha := h a rfl
    rw [List.dropWhile_cons, if_neg (by rw [ha]; simp)]

theorem head?_prefix_mono {l₁ l₂ : List Char} {c : Char} (hp : l₁ <+: l₂)
    (h : l₁.head? = some c) : l₂.head? = some c := by
  rcases hp with ⟨t, rfl⟩
  cases l₁ with
  | nil => simp at h
  | cons a l' => simpa using h

theorem clean_text_canon (l : List Char) : canonWS (clean_text l) := by
  unfold clean_text
  by_cases he : l.isEmpty
  · rw [if_pos he]
    exact ⟨List.chain'_nil, by simp, by simp, by simp⟩
  · rw [if_neg he]
    have hxc : List.Chain' WSok (collapseWS (l.map replCrTab)) :=
      collapseWS_chain _
    have hxs : ∀ c ∈ collapseWS (l.map replCrTab), pyIsSpace c = true → c = ' ' :=
      collapseWS_space _
    have hyc : List.Chain' WSok (lstripWS (collapseWS (l.map replCrTab))) :=
      chain'_dropWhile _ _ hxc
    have hys : ∀ c ∈ lstripWS (collapseWS (l.map replCrTab)),
        pyIsSpace c = true → c = ' ' :=
      fun c hc => hxs c ((List.dropWhile_suffix _).sublist.subset hc)
    have hyh : ∀ c, (lstripWS (collapseWS (l.map replCrTab))).head? = some c →
        pyIsSpace c = false :=
      head?_dropWhile_false _ _
    refine ⟨?_, ?_, ?_, ?_⟩
    · unfold rstripWS
      refine List.chain'_reverse.mpr ?_
      exact chain'_dropWhile _ _ (List.chain'_reverse.mpr hyc)
    · intro c hc
      unfold rstripWS at hc
      rw [List.mem_reverse] at hc
      have hc2 := (List.dropWhile_suffix _).sublist.subset hc
      rw [List.mem_reverse] at hc2
      exact hys c hc2
    · intro c hc
      have hpre : rstripWS (lstripWS (collapseWS (l.map replCrTab)))
          <+: lstripWS (collapseWS (l.map replCrTab)) := by
        unfold rstripWS
        conv_rhs => rw [← List.reverse_reverse (lstripWS (collapseWS (l.map replCrTab)))]
        exact List.reverse_prefix.mpr (List.dropWhile_suffix _)
      exact hyh c (head?_prefix_mono hpre hc)
    · intro c hc
      unfold rstripWS at hc
      rw [List.getLast?_reverse] at hc
      exact head?_dropWhile_false _ _ _ hc

theorem clean_text_of_canon {l : List Char} (h : canonWS l) : clean_text l = l := by
  obtain ⟨hch, hsp, hhd, htl⟩ := h
  unfold clean_text
  by_cases he : l.isEmpty
  · rw [if_pos he]
    exact (List.isEmpty_iff.1 he).symm
  · rw [if_neg he]
    have hmap : l.map replCrTab = l := by
      have hall : ∀ c ∈ l, replCrTab c = c := by
        intro c hc
        unfold replCrTab
        by_cases hcr : c = '\r' || c = '\t'
        · exfalso
          rw [Bool.or_eq_true] at hcr
          rcases hcr with h' | h' <;>
            · rw [decide_eq_true_eq] at h'
              subst h'
              exact absurd (hsp _ hc (by decide)) (by decide)
        · rw [if_neg hcr]
      rw [List.map_congr_left hall, List.map_id']
    rw [hmap, collapseWS_eq_self l hch hsp]
    have hl : lstripWS l = l := dropWhile_eq_self_of_head _ _ fun c hc => hhd c hc
    unfold lstripWS at hl
    unfold lstripWS rstripWS
    rw [hl, dropWhile_eq_self_of_head _ _
      (fun c hc => htl c (by rwa [List.head?_reverse] at hc)), List.reverse_reverse]

theorem clean_text_idem (l : List Char) : clean_text (clean_text l) = clean_text l :=
  clean_text_of_canon (clean_text_canon l)

/-! ## Rounding and half-integer arithmetic of the scorer -/

theorem roundHalfEven_intCast (n : ℤ) : roundHalfEven ((n : ℚ)) = n := by
  unfold roundHalfEven
  rw [Int.floor_intCast]
  rw [if_pos (by rw [sub_self]; norm_num)]

theorem round3_halfInt {q : ℚ} (h : isHalfIntQ q) : round3 q = q := by
  rcases h with ⟨k, rfl⟩
  unfold round3
  have h1 : ((k : ℚ) / 2) * 1000 = ((500 * k : ℤ) : ℚ) := by push_cast; ring
  rw [h1, roundHalfEven_intCast]
  push_cast
  ring

theorem isHalfIntQ_zero : isHalfIntQ 0 := ⟨0, by norm_num⟩

theorem isHalfIntQ_add {a b : ℚ} (ha : isHalfIntQ a) (hb : isHalfIntQ b) :
    isHalfIntQ (a + b) := by
  rcases ha with ⟨k, rfl⟩
  rcases hb with ⟨m, rfl⟩
  exact ⟨k + m, by push_cast; ring⟩

theorem isHalfIntQ_natMul (n : ℕ) {q : ℚ} (h : isHalfIntQ q) :
    isHalfIntQ ((n : ℚ) * q) := by
  rcases h with ⟨k, rfl⟩
  exact ⟨n * k, by push_cast; ring⟩

theorem isHalfIntQ_min {a b : ℚ} (ha : isHalfIntQ a) (hb : isHalfIntQ b) :
    isHalfIntQ (min a b) := by
  rcases le_total a b with h | h
  · rw [min_eq_left h]; exact ha
  · rw [min_eq_right h]; exact hb

theorem keywordPts_halfInt (cfg : EvCfg) (a : Analysis)
    (h : isHalfIntQ cfg.weight_keyword) : isHalfIntQ (keywordPts cfg a) :=
  isHalfIntQ_natMul _ h

theorem numericPts_halfInt (cfg : EvCfg) (a : Analysis)
    (h : isHalfIntQ cfg.weight_numeric_bonus) : isHalfIntQ (numericPts cfg a) := by
  unfold numericPts
  split
  · exact h
  · exact isHalfIntQ_zero

theorem measurementPts_halfInt (a : Analysis) : isHalfIntQ (measurementPts a) := by
  unfold measurementPts
  split
  · exact isHalfIntQ_min ⟨(a.measurements.length : ℤ), by push_cast; ring⟩
      ⟨6, by norm_num⟩
  · exact isHalfIntQ_zero

theorem lengthPts_halfInt (cfg : EvCfg) (a : Analysis)
    (h : isHalfIntQ cfg.weight_length_bonus) : isHalfIntQ (lengthPts cfg a) := by
  unfold lengthPts
  split
  · exact h
  · exact isHalfIntQ_zero

theorem claimPts_halfInt (cfg : EvCfg) (a : Analysis)
    (h : isHalfIntQ cfg.weight_claim_bonus) : isHalfIntQ (claimPts cfg a) :=
  isHalfIntQ_min (isHalfIntQ_natMul _ h) ⟨12, by norm_num⟩

theorem penaltyPts_halfInt (a : Analysis) : isHalfIntQ (penaltyPts a) := by
  unfold penaltyPts
  split
  · exact ⟨-4, by norm_num⟩
  · exact isHalfIntQ_zero

theorem totalPts_halfInt (cfg : EvCfg) (a : Analysis)
    (hk : isHalfIntQ cfg.weight_keyword) (hn : isHalfIntQ cfg.weight_numeric_bonus)
    (hl : isHalfIntQ cfg.weight_length_bonus)
    (hc : isHalfIntQ cfg.weight_claim_bonus) : isHalfIntQ (totalPts cfg a) :=
  isHalfIntQ_add
    (isHalfIntQ_add
      (isHalfIntQ_add
        (isHalfIntQ_add
          (isHalfIntQ_add (keywordPts_halfInt cfg a hk) (numericPts_halfInt cfg a hn))
          (measurementPts_halfInt a))
        (lengthPts_halfInt cfg a hl))
      (claimPts_halfInt cfg a hc))
    (penaltyPts_halfInt a)

theorem totalPts_keywords (cfg : EvCfg) (a : Analysis) (ks : List (List Char))
    (hlen : ks.length = a.keywords_detected.length + 1) :
    totalPts cfg { a with keywords_detected := ks }
      = totalPts cfg a + cfg.weight_keyword := by
  unfold totalPts keywordPts numericPts measurementPts lengthPts claimPts penaltyPts
  rw [hlen]
  push_cast
  ring

/-! ## Values of the float conversion on the two token shapes -/

theorem pyFloat_not_sign {c : Char} {r : List Char} (h1 : ¬c = '-') (h2 : ¬c = '+') :
    pyFloat (c :: r) = pyFloatCore (c :: r) := by
  simp only [pyFloat]
  rw [if_neg h1, if_neg h2]

theorem pyFloat_digits {l : List Char} (hne : l ≠ [])
    (hd : ∀ c ∈ l, Char.isDigit c = true) :
    pyFloat l = some ((digitsVal l : ℚ)) := by
  have hs := spanP_all Char.isDigit l hd
  cases l with
  | nil => exact absurd rfl hne
  | cons c rest =>
    have hie : (c :: rest).isEmpty = false := rfl
    have hcd := hd c (by simp)
    have hc1 : ¬c = '-' := by intro he; rw [he] at hcd; exact absurd hcd (by decide)
    have hc2 : ¬c = '+' := by intro he; rw [he] at hcd; exact absurd hcd (by decide)
    rw [pyFloat_not_sign hc1 hc2]
    simp only [pyFloatCore]
    rw [hs]
    simp [hie, pyExp]

theorem pyFloat_decimal {ds fs : List Char} (hds : ∀ c ∈ ds, Char.isDigit c = true)
    (hfsne : fs ≠ []) (hfs : ∀ c ∈ fs, Char.isDigit c = true) :
    pyFloat (ds ++ '.' :: fs)
      = some ((digitsVal ds : ℚ) + (digitsVal fs : ℚ) / 10 ^ fs.length) := by
  have hspan : spanP Char.isDigit (ds ++ '.' :: fs) = (ds, '.' :: fs) :=
    spanP_append _ _ _ _ hds (by decide)
  have hfp := spanP_all Char.isDigit fs hfs
  have hfse : fs.isEmpty = false := by
    cases fs with
    | nil => exact absurd rfl hfsne
    | cons a b => rfl
  have hcore : pyFloatCore (ds ++ '.' :: fs)
      = some ((digitsVal ds : ℚ) + (digitsVal fs : ℚ) / 10 ^ fs.length) := by
    simp only [pyFloatCore]
    rw [hspan]
    simp [hfp, hfse, pyExp]
  cases ds with
  | nil =>
    simp only [List.nil_append] at hcore ⊢
    rw [pyFloat_not_sign (by decide) (by decide)]
    exact hcore
  | cons d dt =>
    have hdd := hds d (by simp)
    have hc1 : ¬d = '-' := by intro he; rw [he] at hdd; exact absurd hdd (by decide)
    have hc2 : ¬d = '+' := by intro he; rw [he] at hdd; exact absurd hdd (by decide)
    show pyFloat (d :: (dt ++ '.' :: fs)) = _
    rw [pyFloat_not_sign hc1 hc2]
    exact hcore

theorem extract_numbers_eq (l : List Char) :
    extract_numbers l = (numFindall l).map fun t => (pyFloat t).getD 0 :=
  filterMap_total pyFloat 0 _ fun _ ht => pyFloat_total_of_spec (numFindall_sound ht)

/-! ## Claim theorems -/

/-- C1: for every input text and configuration the composed transform
`analyze_text` followed by `score` is deterministic: two result values
obtained from the same text and configuration are identical, in particular
their `score` fields are equal (the embedding is a pure function of its
inputs; the source performs no I/O, reads no clock and draws no randomness
in these two methods). -/
theorem pipeline_deterministic (acfg : AnalyzerCfg) (ecfg : EvCfg)
    (raw : List Char) (r₁ r₂ : ScoreResult)
    (h₁ : r₁ = run_pipeline acfg ecfg raw)
    (h₂ : r₂ = run_pipeline acfg ecfg raw) : r₁ = r₂ ∧ r₁.score = r₂.score := by
  subst h₁
  subst h₂
  exact ⟨rfl, rfl⟩

/-- Witness for C1: two runs of the pipeline on the sample K2-18b paragraph
with the default configurations agree, bit for bit. -/
theorem pipeline_deterministic_witness :
    run_pipeline defaultAnalyzerCfg defaultEvCfg sampleK218b
        = run_pipeline defaultAnalyzerCfg defaultEvCfg sampleK218b ∧
      (run_pipeline defaultAnalyzerCfg defaultEvCfg sampleK218b).score
        = (run_pipeline defaultAnalyzerCfg defaultEvCfg sampleK218b).score :=
  pipeline_deterministic defaultAnalyzerCfg defaultEvCfg sampleK218b _ _ rfl rfl

/-- C2 counterexample: the claim fails for the reachable configuration
`AnalyzerAgent(keywords=[""])` — Python's `"" in ""` is `True`, so analysing
the empty string returns `keywords_detected == [""]`, which is not empty. -/
theorem analyze_empty_text_cex :
    (analyze_text emptyKwCfg []).keywords_detected = [[]] ∧
      (analyze_text emptyKwCfg []).keywords_detected ≠ [] := by decide

/-- C2 (amended): for every configuration whose keyword entries are all
nonempty, `analyze_text` on the empty string returns the record with
`word_count = 0`, `sentence_count = 0`, all sequence fields empty and the
empty snippet.  (As stated the claim fails only for vocabularies containing
the empty string, which every string trivially contains.) -/
theorem analyze_empty_text (cfg : AnalyzerCfg) (h : ∀ k ∈ cfg.keywords, k ≠ []) :
    analyze_text cfg [] = emptyAnalysis := by
  have hk : find_keywords cfg.keywords [] = [] := by
    unfold find_keywords
    rw [List.filter_eq_nil_iff]
    intro k hkk hcont
    have hknil : k = [] := by
      cases k with
      | nil => rfl
      | cons a b => simp [containsSub, lowerStr] at hcont
    exact h k hkk hknil
  simp only [analyze_text, emptyAnalysis]
  rw [Analysis.mk.injEq]
  refine ⟨rfl, rfl, rfl, rfl, hk, rfl, ?_⟩
  simp [clean_text]

/-- Witness for C2: the default configuration has only nonempty keywords and
analysing the empty string yields the all-empty record. -/
theorem analyze_empty_text_witness :
    (∀ k ∈ defaultAnalyzerCfg.keywords, k ≠ []) ∧
      analyze_text defaultAnalyzerCfg [] = emptyAnalysis :=
  ⟨by decide, analyze_empty_text defaultAnalyzerCfg (by decide)⟩

/-- C3 counterexample: the "appears exactly once" part fails for the
reachable configuration `AnalyzerAgent(keywords=["Mass", "mass"])` (a set of
two distinct strings): lowercasing collapses them and `_find_keywords`
emits the entry once per vocabulary occurrence, so "mass" is reported
twice. -/
theorem keywords_detected_dup_cex :
    (analyze_text dupVocabCfg (strL ("mass"))).keywords_detected.count (strL ("mass")) = 2 ∧
      ¬(analyze_text dupVocabCfg (strL ("mass"))).keywords_detected.Nodup := by
  decide

/-- C3 (amended): for every configuration and text, `keywords_detected` is a
sublist of the stored vocabulary (hence ordered by vocabulary order, with
length at most the vocabulary length), every reported keyword is a
substring of the lowercased normalised text, and — provided the stored
(lowercased) vocabulary has no duplicates — each found entry appears exactly
once. -/
theorem keywords_detected_spec (cfg : AnalyzerCfg) (raw : List Char) :
    (analyze_text cfg raw).keywords_detected.Sublist cfg.keywords ∧
      (analyze_text cfg raw).keywords_detected.length ≤ cfg.keywords.length ∧
      (∀ k ∈ (analyze_text cfg raw).keywords_detected,
        k <:+: lowerStr (clean_text raw)) ∧
      (cfg.keywords.Nodup → (analyze_text cfg raw).keywords_detected.Nodup) := by
  have he : (analyze_text cfg raw).keywords_detected
      = cfg.keywords.filter fun kw => containsSub (lowerStr (clean_text raw)) kw := rfl
  rw [he]
  refine ⟨List.filter_sublist _, (List.filter_sublist _).length_le, ?_,
    fun hn => hn.filter _⟩
  intro k hk
  rw [List.mem_filter] at hk
  exact (containsSub_infix_iff _ _).1 hk.2

set_option maxRecDepth 100000 in
/-- Witness for C3: the default vocabulary is duplicate-free, so the
keywords detected in the sample paragraph are pairwise distinct, and the
detected keyword "orbit" is indeed an infix of the lowercased text. -/
theorem keywords_detected_witness :
    defaultAnalyzerCfg.keywords.Nodup ∧
      (analyze_text defaultAnalyzerCfg sampleK218b).keywords_detected.Nodup ∧
      strL ("orbit") <:+: lowerStr (clean_text sampleK218b) :=
  ⟨by decide,
   (keywords_detected_spec defaultAnalyzerCfg sampleK218b).2.2.2 (by decide),
   (keywords_detected_spec defaultAnalyzerCfg sampleK218b).2.2.1 (strL ("orbit"))
     (by decide)⟩

/-- C4 counterexample: "-5" satisfies the claimed grammar (optional sign,
digits, optional decimal part) with float value `-5.0`, but the analyzer
extracts `[5.0]` from the text "-5": the signed branch of `_NUMBER_RE`
requires a decimal point, so the sign of a plain integer is not captured. -/
theorem numbers_found_signed_cex :
    specNumTokenClaimed (strL ("-5")) = true ∧
      (analyze_text defaultAnalyzerCfg (strL ("-5"))).numbers_found = [5] ∧
      ¬((-5 : ℚ) ∈ (analyze_text defaultAnalyzerCfg (strL ("-5"))).numbers_found) := by
  have htok : numFindall (clean_text (strL ("-5"))) = [strL ("5")] := by decide
  have hnum : (analyze_text defaultAnalyzerCfg (strL ("-5"))).numbers_found = [5] := by
    show extract_numbers (clean_text (strL ("-5"))) = _
    rw [extract_numbers_eq, htok]
    have h5 : pyFloat (strL ("5")) = some ((digitsVal (strL ("5")) : ℚ)) :=
      pyFloat_digits (by decide) (by decide)
    simp only [List.map, h5, Option.getD_some]
    rw [show digitsVal (strL ("5")) = 5 from by decide]
    norm_num
  refine ⟨by decide, hnum, ?_⟩
  rw [hnum]
  intro hmem
  rw [List.mem_singleton] at hmem
  norm_num at hmem

/-- C4 (amended): `numbers_found` is exactly the left-to-right sequence of
`_NUMBER_RE` matches of the normalised text converted with `float`, in
order with duplicates preserved; every matched token satisfies the
implemented grammar "optional sign, digits, decimal point and fractional
digits" OR "unsigned digits" (so a signed integer such as "-5" contributes
`5.0` from its digit run, not `-5.0`), and the conversion succeeds on every
matched token, so the per-token skip-on-failure policy never drops one. -/
theorem numbers_found_spec (cfg : AnalyzerCfg) (raw : List Char) :
    (analyze_text cfg raw).numbers_found
        = (numFindall (clean_text raw)).map (fun t => (pyFloat t).getD 0) ∧
      ∀ t ∈ numFindall (clean_text raw),
        specNumToken t = true ∧ (pyFloat t).isSome = true := by
  constructor
  · exact extract_numbers_eq (clean_text raw)
  · intro t ht
    exact ⟨numFindall_sound ht, pyFloat_total_of_spec (numFindall_sound ht)⟩

/-- Witness for C4: in the text "x 3.5 y" the token "3.5" is matched,
satisfies the implemented grammar and converts successfully. -/
theorem numbers_found_witness :
    (strL ("3.5") ∈ numFindall (clean_text (strL ("x 3.5 y")))) ∧
      specNumToken (strL ("3.5")) = true ∧ (pyFloat (strL ("3.5"))).isSome = true :=
  ⟨by decide,
   (numbers_found_spec defaultAnalyzerCfg (strL ("x 3.5 y"))).2 (strL ("3.5"))
     (by decide)⟩

set_option maxRecDepth 1000000 in
/-- C5: on the sample K2-18b sentence with the default configuration the
extracted numbers contain `124.0`, `2.6` and `33.0` as a subsequence in
that order (the full sequence is `[2, 18, 124, 2.6, 33]`, the leading two
coming from "K2-18b"), and the detected keywords include "exoplanet",
"radius", "orbital" and "period". -/
theorem sample_k218b_extraction :
    ([(124 : ℚ), 13 / 5, 33]).Sublist
        ((analyze_text defaultAnalyzerCfg sampleK218b).numbers_found) ∧
      strL ("exoplanet") ∈ (analyze_text defaultAnalyzerCfg sampleK218b).keywords_detected ∧
      strL ("radius") ∈ (analyze_text defaultAnalyzerCfg sampleK218b).keywords_detected ∧
      strL ("orbital") ∈ (analyze_text defaultAnalyzerCfg sampleK218b).keywords_detected ∧
      strL ("period") ∈ (analyze_text defaultAnalyzerCfg sampleK218b).keywords_detected := by
  have htoks : numFindall (clean_text sampleK218b)
      = [strL ("2"), strL ("18"), strL ("124"), strL ("2.6"), strL ("33")] := by decide
  have hnum : (analyze_text defaultAnalyzerCfg sampleK218b).numbers_found
      = [2, 18, 124, 13 / 5, 33] := by
    show extract_numbers (clean_text sampleK218b) = _
    rw [extract_numbers_eq, htoks]
    have h2 : pyFloat (strL ("2")) = some ((digitsVal (strL ("2")) : ℚ)) :=
      pyFloat_digits (by decide) (by decide)
    have h18 : pyFloat (strL ("18")) = some ((digitsVal (strL ("18")) : ℚ)) :=
      pyFloat_digits (by decide) (by decide)
    have h124 : pyFloat (strL ("124")) = some ((digitsVal (strL ("124")) : ℚ)) :=
      pyFloat_digits (by decide) (by decide)
    have h33 : pyFloat (strL ("33")) = some ((digitsVal (strL ("33")) : ℚ)) :=
      pyFloat_digits (by decide) (by decide)
    have h26 : pyFloat (strL ("2.6"))
        = some ((digitsVal (strL ("2")) : ℚ)
            + (digitsVal (strL ("6")) : ℚ) / 10 ^ (strL ("6")).length) := by
      rw [show strL ("2.6") = strL ("2") ++ '.' :: strL ("6") from by decide]
      exact pyFloat_decimal (by decide) (by decide) (by decide)
    simp only [List.map, h2, h18, h124, h26, h33, Option.getD_some]
    rw [show digitsVal (strL ("2")) = 2 from by decide,
      show digitsVal (strL ("18")) = 18 from by decide,
      show digitsVal (strL ("124")) = 124 from by decide,
      show digitsVal (strL ("6")) = 6 from by decide,
      show digitsVal (strL ("33")) = 33 from by decide,
      show (strL ("6")).length = 1 from by decide]
    norm_num
  refine ⟨?_, by decide, by decide, by decide, by decide⟩
  rw [hnum]
  exact ((List.Sublist.refl _).cons _).cons _

/-- C6 counterexample: with the reachable configuration
`EvaluatorAgent(weights={"keyword": 2**-20})` (an exact IEEE-754 double),
adding one detected keyword to the all-zero record does not change the
rounded score at all: both records score `-2.0` after rounding to three
decimals, so the increase is not exactly `weight_keyword`. -/
theorem score_keyword_monotone_cex :
    oneKwAnalysis.keywords_detected.length
        = zeroAnalysis.keywords_detected.length + 1 ∧
      (score tinyEvCfg { original_id := none, analysis := oneKwAnalysis }).score
        ≠ (score tinyEvCfg { original_id := none, analysis := zeroAnalysis }).score
          + tinyEvCfg.weight_keyword := by
  have hz : totalPts tinyEvCfg zeroAnalysis = -2 := by
    simp [totalPts, keywordPts, numericPts, measurementPts, lengthPts, claimPts,
      penaltyPts, zeroAnalysis, emptyAnalysis, tinyEvCfg]
  have ho : totalPts tinyEvCfg oneKwAnalysis = 1 / 1048576 - 2 := by
    simp [totalPts, keywordPts, numericPts, measurementPts, lengthPts, claimPts,
      penaltyPts, oneKwAnalysis, zeroAnalysis, emptyAnalysis, tinyEvCfg]
    norm_num
  have hsz : (score tinyEvCfg { original_id := none, analysis := zeroAnalysis }).score = -2 := by
    show round3 (totalPts tinyEvCfg zeroAnalysis) = -2
    rw [hz]
    exact round3_halfInt ⟨-4, by norm_num⟩
  have hso : (score tinyEvCfg { original_id := none, analysis := oneKwAnalysis }).score = -2 := by
    show round3 (totalPts tinyEvCfg oneKwAnalysis) = -2
    rw [ho]
    unfold round3
    have h1 : ((1 : ℚ) / 1048576 - 2) * 1000 = -2000 + 125 / 131072 := by norm_num
    rw [h1]
    have hf : ⌊(-2000 + 125 / 131072 : ℚ)⌋ = -2000 := by
      rw [Int.floor_eq_iff]
      constructor <;> push_cast <;> norm_num
    unfold roundHalfEven
    rw [hf, if_pos (by push_cast; norm_num)]
    push_cast
    norm_num
  refine ⟨by decide, ?_⟩
  rw [hsz, hso, show tinyEvCfg.weight_keyword = 1 / 1048576 from rfl]
  norm_num

/-- C6 (amended): provided every configured weight is an integer multiple
of one half — as the defaults 2.0, 3.0, 1.0, 1.5 are, making every factor
and total exactly representable and unchanged by the 3-decimal rounding —
replacing the `keywords_detected` list by one with exactly one more element
(all other fields fixed) increases the `score` field by exactly
`weight_keyword`.  (For arbitrary float weights the claim fails: a tiny
weight is absorbed by the rounding, see the counterexample.) -/
theorem score_keyword_monotone (cfg : EvCfg) (item : AnalysisItem)
    (ks : List (List Char))
    (hk : isHalfIntQ cfg.weight_keyword) (hn : isHalfIntQ cfg.weight_numeric_bonus)
    (hl : isHalfIntQ cfg.weight_length_bonus) (hc : isHalfIntQ cfg.weight_claim_bonus)
    (hlen : ks.length = item.analysis.keywords_detected.length + 1) :
    (score cfg { item with analysis := { item.analysis with keywords_detected := ks } }).score
      = (score cfg item).score + cfg.weight_keyword := by
  have h1 : (score cfg item).score = round3 (totalPts cfg item.analysis) := rfl
  have h2 : (score cfg { item with
      analysis := { item.analysis with keywords_detected := ks } }).score
      = round3 (totalPts cfg { item.analysis with keywords_detected := ks }) := rfl
  have hhalf := totalPts_halfInt cfg item.analysis hk hn hl hc
  rw [h1, h2, totalPts_keywords cfg item.analysis ks hlen,
    round3_halfInt (isHalfIntQ_add hhalf hk), round3_halfInt hhalf]

/-- Witness for C6: with the default weights, adding the single keyword "a"
to the all-zero record raises the score by exactly the keyword weight 2.0
(from -2.0 to 0.0). -/
theorem score_keyword_monotone_witness :
    isHalfIntQ defaultEvCfg.weight_keyword ∧
      ([strL ("a")] : List (List Char)).length
        = zeroAnalysis.keywords_detected.length + 1 ∧
      (score defaultEvCfg
          { original_id := none,
            analysis := { zeroAnalysis with keywords_detected := [strL ("a")] } }).score
        = (score defaultEvCfg { original_id := none, analysis := zeroAnalysis }).score
          + defaultEvCfg.weight_keyword :=
  ⟨⟨4, by norm_num [defaultEvCfg]⟩, by decide,
   score_keyword_monotone defaultEvCfg { original_id := none, analysis := zeroAnalysis }
     [strL ("a")] ⟨4, by norm_num [defaultEvCfg]⟩ ⟨6, by norm_num [defaultEvCfg]⟩
     ⟨2, by norm_num [defaultEvCfg]⟩ ⟨3, by norm_num [defaultEvCfg]⟩ (by decide)⟩

/-- C7: for every configuration and every analysis record, the
`measurement_score` entry of the breakdown equals
`min(len(measurements) * 0.5, 3.0)`; in particular a record with 10
measurements gets exactly 3.0, the cap, not 5.0. -/
theorem measurement_score_capped (cfg : EvCfg) (item : AnalysisItem) :
    (score cfg item).breakdown.measurement_score
      = min ((item.analysis.measurements.length : ℚ) * (1 / 2)) 3 := by
  show measurementPts item.analysis = _
  unfold measurementPts
  split
  · rfl
  · rename_i hlen
    have h0 : item.analysis.measurements.length = 0 := by omega
    rw [h0]
    norm_num

/-- C8: normalisation is idempotent with respect to analysis — analysing
the normalised text (`clean_text` of the input) produces the same record,
in every field, as analysing the raw input, because every field is derived
from the normalised text and `clean_text` is idempotent. -/
theorem analyze_normalize_idempotent (cfg : AnalyzerCfg) (raw : List Char) :
    analyze_text cfg (clean_text raw) = analyze_text cfg raw := by
  simp only [analyze_text, clean_text_idem]

/-- C9: neither core operation signals an error.  Both are modelled as
total functions; the analyzer returns a well-formed record on every input
(bounded snippet, keyword hits within the vocabulary, claims drawn from the
sentences), its number and measurement extraction is exactly a `filterMap`
over the regex matches — a per-token failure is skipped without aborting
the scan — and the scorer returns a well-formed result (rounded sum of the
always-complete breakdown, verdict from the unrounded total) for every
record, including the all-zero record. -/
theorem core_total_wellformed (acfg : AnalyzerCfg) (raw : List Char)
    (ecfg : EvCfg) (item : AnalysisItem) :
    analysisWF acfg (analyze_text acfg raw) ∧
      (analyze_text acfg raw).numbers_found
        = (numFindall (clean_text raw)).filterMap pyFloat ∧
      (analyze_text acfg raw).measurements
        = (measFinditer (clean_text raw)).filterMap measConv ∧
      scoreResultWF ecfg item (score ecfg item) := by
  refine ⟨⟨?_, ?_, ?_⟩, rfl, rfl, rfl, ?_, rfl, rfl⟩
  · show (List.take acfg.max_snippet_chars (clean_text raw) ++ _).length ≤ _
    rw [List.length_append, List.length_take]
    have hm := Nat.min_le_left acfg.max_snippet_chars (clean_text raw).length
    split
    · simp only [List.length_cons, List.length_nil]
      omega
    · simp only [List.length_nil]
      omega
  · exact List.length_filter_le _ _
  · exact List.length_filter_le _ _
  · exact decide_eq_true_iff

/-- Witness for C9: a text of malformed numeric fragments still yields a
well-formed record, and the all-zero record yields a well-formed score
result. -/
theorem core_total_wellformed_witness :
    analysisWF defaultAnalyzerCfg
        (analyze_text defaultAnalyzerCfg (strL ("1.2.3 ++5 ..e9"))) ∧
      scoreResultWF defaultEvCfg { original_id := none, analysis := zeroAnalysis }
        (score defaultEvCfg { original_id := none, analysis := zeroAnalysis }) :=
  ⟨(core_total_wellformed defaultAnalyzerCfg (strL ("1.2.3 ++5 ..e9")) defaultEvCfg
      { original_id := none, analysis := zeroAnalysis }).1,
   (core_total_wellformed defaultAnalyzerCfg (strL ("1.2.3 ++5 ..e9")) defaultEvCfg
      { original_id := none, analysis := zeroAnalysis }).2.2.2⟩

/-- C10: under the default weights and thresholds the score of every
analysis record is at least -2.0: every factor contribution is nonnegative
except the fixed short-content penalty of -2.0, and the total — a sum of
integer multiples of 0.5 — is unchanged by the rounding to 3 decimals. -/
theorem score_lower_bound_default (item : AnalysisItem) :
    (-2 : ℚ) ≤ (score defaultEvCfg item).score := by
  have hh : isHalfIntQ (totalPts defaultEvCfg item.analysis) :=
    totalPts_halfInt defaultEvCfg item.analysis ⟨4, by norm_num [defaultEvCfg]⟩
      ⟨6, by norm_num [defaultEvCfg]⟩ ⟨2, by norm_num [defaultEvCfg]⟩
      ⟨3, by norm_num [defaultEvCfg]⟩
  have hs : (score defaultEvCfg item).score = totalPts defaultEvCfg item.analysis :=
    round3_halfInt hh
  rw [hs]
  have h1 : 0 ≤ keywordPts defaultEvCfg item.analysis := by
    unfold keywordPts
    rw [show defaultEvCfg.weight_keyword = 2 from rfl]
    positivity
  have h2 : 0 ≤ numericPts defaultEvCfg item.analysis := by
    unfold numericPts
    split
    · rw [show defaultEvCfg.weight_numeric_bonus = 3 from rfl]; norm_num
    · exact le_refl 0
  have h3 : 0 ≤ measurementPts item.analysis := by
    unfold measurementPts
    split
    · exact le_min (by positivity) (by norm_num)
    · exact le_refl 0
  have h4 : 0 ≤ lengthPts defaultEvCfg item.analysis := by
    unfold lengthPts
    split
    · rw [show defaultEvCfg.weight_length_bonus = 1 from rfl]; norm_num
    · exact le_refl 0
  have h5 : 0 ≤ claimPts defaultEvCfg item.analysis := by
    unfold claimPts
    refine le_min ?_ (by norm_num)
    rw [show defaultEvCfg.weight_claim_bonus = 3 / 2 from rfl]
    positivity
  have h6 : -2 ≤ penaltyPts item.analysis := by
    unfold penaltyPts
    split
    · norm_num
    · norm_num
  unfold totalPts
  linarith
